import Mathlib

/-
Verification development for the MuyGPS nearest-neighbor Gaussian process
workflow (MuyGPyS).  The repository's visible sources are tutorial notebooks
that call into the library: the nearest-neighbor index, batch sampler, tensor
builder, kernel evaluator, optimizer and predictor are used there but not
defined.  Following the specification's component contracts, those components
are modelled here over exact rational arithmetic; each modelled definition is
marked as such in its doc comment.  Definitions that do come from visible
notebook code (the benchmark grid construction and train/test split) are
translated from that code directly.
-/

/-- A feature or response vector: a row of a data matrix. -/
abbrev Vec := List ℚ

/-- A data matrix: an ordered sequence of rows. -/
abbrev Mat := List Vec

/-- Modelled from the spec: the error taxonomy of the core, section 7 of the
specification.  `InvalidArgument` covers shape mismatch, batch size exceeding
the population and neighbor count exceeding the population. -/
inductive MuyError
  | InvalidArgument
  | NumericalInstability
  | OptimizationNonconvergence
deriving DecidableEq, Repr

/-- Modelled from the spec: the l2 (Euclidean) metric on one-dimensional
feature rows, the setting of all three tutorials (features are reshaped
`(n, 1)` grids).  On one-dimensional rows the Euclidean distance is the
absolute difference, which is exact over ℚ. -/
def l2dist1 (x y : Vec) : ℚ := |x.getD 0 0 - y.getD 0 0|

/-- Modelled from the spec: the crosswise distance matrix of the Tensor
Builder (spec 4.3, `crosswise_distances`, absent from the visible sources).
Entry `[i, j]` is `metric (data[indices[i]]) (nnData[nnIndices[i][j]])`. -/
def crosswise_distances (metric : Vec → Vec → ℚ) (data nnData : Mat)
    (indices : List Nat) (nnIndices : List (List Nat)) : Mat :=
  List.zipWith
    (fun bi row => row.map fun ni => metric (data.getD bi []) (nnData.getD ni []))
    indices nnIndices

/-- Modelled from the spec: the pairwise distance tensor of the Tensor
Builder (spec 4.3, `pairwise_distances`, absent from the visible sources).
Entry `[i, j, l]` is `metric (nnData[nnIndices[i][j]]) (nnData[nnIndices[i][l]])`. -/
def pairwise_distances (metric : Vec → Vec → ℚ) (nnData : Mat)
    (nnIndices : List (List Nat)) : List Mat :=
  nnIndices.map fun row =>
    row.map fun ni => row.map fun nl =>
      metric (nnData.getD ni []) (nnData.getD nl [])

/-- Modelled from the spec: the batch target matrix, `batch_targets[i] =
responses[batch_indices[i]]` (spec 4.3). -/
def batch_targets_of (responses : Mat) (indices : List Nat) : Mat :=
  indices.map fun bi => responses.getD bi []

/-- Modelled from the spec: the batch nearest-neighbor target tensor,
`batch_nn_targets[i][j] = responses[batch_nn_indices[i][j]]` (spec 4.3). -/
def batch_nn_targets_of (responses : Mat) (nnIndices : List (List Nat)) :
    List Mat :=
  nnIndices.map fun row => row.map fun ni => responses.getD ni []

/-- Modelled from the spec: `make_train_tensors` (spec 4.3, absent from the
visible sources), bundling the crosswise distances, pairwise distances, batch
targets and batch nearest-neighbor targets of a training batch. -/
def make_train_tensors (metric : Vec → Vec → ℚ) (batchIndices : List Nat)
    (batchNNIndices : List (List Nat)) (features responses : Mat) :
    Mat × List Mat × Mat × List Mat :=
  (crosswise_distances metric features features batchIndices batchNNIndices,
   pairwise_distances metric features batchNNIndices,
   batch_targets_of responses batchIndices,
   batch_nn_targets_of responses batchNNIndices)

/-- Modelled from the spec: `make_regress_tensors` (absent from the visible
sources), building the crosswise distances of test points against their
training neighbors, the pairwise distances among the neighbor sets, and the
neighbor target tensor. -/
def make_regress_tensors (metric : Vec → Vec → ℚ) (indices : List Nat)
    (nnIndices : List (List Nat)) (testFeatures trainFeatures trainResponses : Mat) :
    Mat × List Mat × List Mat :=
  (crosswise_distances metric testFeatures trainFeatures indices nnIndices,
   pairwise_distances metric trainFeatures nnIndices,
   batch_nn_targets_of trainResponses nnIndices)

/- General list-access helper lemmas. -/

theorem getD_of_map {α β : Type} (f : α → β) (l : List α) (i : Nat) (d : β)
    (d' : α) (h : i < l.length) : (l.map f).getD i d = f (l.getD i d') := by
  rw [List.getD_eq_getElem _ _ (by simpa using h), List.getElem_map,
    List.getD_eq_getElem _ _ h]

theorem getD_of_zipWith {α β γ : Type} (f : α → β → γ) (as : List α)
    (bs : List β) (i : Nat) (d : γ) (da : α) (db : β) (ha : i < as.length)
    (hb : i < bs.length) :
    (List.zipWith f as bs).getD i d = f (as.getD i da) (bs.getD i db) := by
  rw [List.getD_eq_getElem _ _ (by simp; omega), List.getElem_zipWith,
    List.getD_eq_getElem _ _ ha, List.getD_eq_getElem _ _ hb]

theorem getD_of_range (i n : Nat) (d : Nat) (h : i < n) :
    (List.range n).getD i d = i := by
  rw [List.getD_eq_getElem _ _ (by simpa using h), List.getElem_range]

/-- C1: for in-range indices, the four tensors returned by
`make_train_tensors` satisfy the entrywise contract:
crosswise `[i, j]` is the metric between the batch point and its j-th
neighbor, pairwise `[i, j, l]` is the metric between the i-th batch point's
j-th and l-th neighbors, `batch_targets[i]` is the response row of the i-th
batch point, and `batch_nn_targets[i][j]` is the response row of its j-th
neighbor. -/
theorem make_train_tensors_entries (metric : Vec → Vec → ℚ)
    (bIdx : List Nat) (bNN : List (List Nat)) (features responses : Mat)
    (i j l : Nat) (hbn : bNN.length = bIdx.length) (hi : i < bIdx.length)
    (hj : j < (bNN.getD i []).length) (hl : l < (bNN.getD i []).length) :
    (((make_train_tensors metric bIdx bNN features responses).1.getD i []).getD j 0
        = metric (features.getD (bIdx.getD i 0) [])
            (features.getD ((bNN.getD i []).getD j 0) []))
    ∧ ((((make_train_tensors metric bIdx bNN features responses).2.1.getD i []).getD j []).getD l 0
        = metric (features.getD ((bNN.getD i []).getD j 0) [])
            (features.getD ((bNN.getD i []).getD l 0) []))
    ∧ ((make_train_tensors metric bIdx bNN features responses).2.2.1.getD i []
        = responses.getD (bIdx.getD i 0) [])
    ∧ (((make_train_tensors metric bIdx bNN features responses).2.2.2.getD i []).getD j []
        = responses.getD ((bNN.getD i []).getD j 0) []) := by
  have hib : i < bNN.length := hbn ▸ hi
  refine ⟨?_, ?_, ?_, ?_⟩
  · rw [show (make_train_tensors metric bIdx bNN features responses).1
        = crosswise_distances metric features features bIdx bNN from rfl,
      crosswise_distances, getD_of_zipWith _ _ _ _ _ 0 [] hi hib,
      getD_of_map _ _ _ _ 0 hj]
  · rw [show (make_train_tensors metric bIdx bNN features responses).2.1
        = pairwise_distances metric features bNN from rfl,
      pairwise_distances, getD_of_map _ _ _ _ [] hib,
      getD_of_map _ _ _ _ 0 hj, getD_of_map _ _ _ _ 0 hl]
  · rw [show (make_train_tensors metric bIdx bNN features responses).2.2.1
        = batch_targets_of responses bIdx from rfl,
      batch_targets_of, getD_of_map _ _ _ _ 0 hi]
  · rw [show (make_train_tensors metric bIdx bNN features responses).2.2.2
        = batch_nn_targets_of responses bNN from rfl,
      batch_nn_targets_of, getD_of_map _ _ _ _ [] hib,
      getD_of_map _ _ _ _ 0 hj]

theorem make_train_tensors_entries_witness :
    ([[1], [2]] : List (List Nat)).length = ([0, 1] : List Nat).length
    ∧ (((make_train_tensors l2dist1 [0, 1] [[1], [2]]
          [[0], [3], [7]] [[10], [20], [30]]).1.getD 0 []).getD 0 0
        = l2dist1 (([[0], [3], [7]] : Mat).getD (([0, 1] : List Nat).getD 0 0) [])
            (([[0], [3], [7]] : Mat).getD
              ((([[1], [2]] : List (List Nat)).getD 0 []).getD 0 0) [])) :=
  ⟨by decide,
   (make_train_tensors_entries l2dist1 [0, 1] [[1], [2]] [[0], [3], [7]]
      [[10], [20], [30]] 0 0 0 (by decide) (by decide) (by decide) (by decide)).1⟩

/-- Entry formula for the pairwise distance tensor, used by several
invariant proofs. -/
theorem pairwise_distances_entry (metric : Vec → Vec → ℚ) (features : Mat)
    (bNN : List (List Nat)) (i j l : Nat) (hi : i < bNN.length)
    (hj : j < (bNN.getD i []).length) (hl : l < (bNN.getD i []).length) :
    (((pairwise_distances metric features bNN).getD i []).getD j []).getD l 0
      = metric (features.getD ((bNN.getD i []).getD j 0) [])
          (features.getD ((bNN.getD i []).getD l 0) []) := by
  rw [pairwise_distances, getD_of_map _ _ _ _ [] hi,
    getD_of_map _ _ _ _ 0 hj, getD_of_map _ _ _ _ 0 hl]

/-- C2: for valid inputs (row-aligned index matrices whose neighbor rows all
have length `nn_count`) and a metric that is non-negative, symmetric and zero
on the diagonal (the supported l2 metric is such), the distance tensors of
`make_train_tensors` have shapes `(batch_count, nn_count)` and
`(batch_count, nn_count, nn_count)`, every entry of both is non-negative, and
the pairwise tensor is symmetric in its last two axes with zero diagonal. -/
theorem make_train_tensors_invariants (metric : Vec → Vec → ℚ)
    (bIdx : List Nat) (bNN : List (List Nat)) (features responses : Mat)
    (nnCount : Nat) (hm0 : ∀ x y, 0 ≤ metric x y)
    (hms : ∀ x y, metric x y = metric y x) (hmz : ∀ x, metric x x = 0)
    (hbn : bNN.length = bIdx.length)
    (hrow : ∀ row ∈ bNN, row.length = nnCount) :
    ((make_train_tensors metric bIdx bNN features responses).1.length = bIdx.length)
    ∧ (∀ r ∈ (make_train_tensors metric bIdx bNN features responses).1,
        r.length = nnCount)
    ∧ ((make_train_tensors metric bIdx bNN features responses).2.1.length = bIdx.length)
    ∧ (∀ M ∈ (make_train_tensors metric bIdx bNN features responses).2.1,
        M.length = nnCount ∧ ∀ r ∈ M, r.length = nnCount)
    ∧ (∀ r ∈ (make_train_tensors metric bIdx bNN features responses).1,
        ∀ x ∈ r, 0 ≤ x)
    ∧ (∀ M ∈ (make_train_tensors metric bIdx bNN features responses).2.1,
        ∀ r ∈ M, ∀ x ∈ r, 0 ≤ x)
    ∧ (∀ i j l, i < bIdx.length → j < nnCount → l < nnCount →
        (((make_train_tensors metric bIdx bNN features responses).2.1.getD i []).getD j []).getD l 0
          = (((make_train_tensors metric bIdx bNN features responses).2.1.getD i []).getD l []).getD j 0)
    ∧ (∀ i j, i < bIdx.length → j < nnCount →
        (((make_train_tensors metric bIdx bNN features responses).2.1.getD i []).getD j []).getD j 0 = 0) := by
  have hc : (make_train_tensors metric bIdx bNN features responses).1
      = crosswise_distances metric features features bIdx bNN := rfl
  have hp : (make_train_tensors metric bIdx bNN features responses).2.1
      = pairwise_distances metric features bNN := rfl
  rw [hc, hp]
  have hcrossRow : ∀ r ∈ crosswise_distances metric features features bIdx bNN,
      ∃ bi row, row ∈ bNN
        ∧ r = row.map fun ni => metric (features.getD bi []) (features.getD ni []) := by
    intro r hr
    rw [List.mem_iff_getElem] at hr
    obtain ⟨i, h, hre⟩ := hr
    simp only [crosswise_distances] at hre h
    rw [List.getElem_zipWith] at hre
    have hib : i < bNN.length := by
      rw [List.length_zipWith] at h
      omega
    exact ⟨bIdx[i], bNN[i], List.getElem_mem hib, hre.symm⟩
  have hrowLen : ∀ i, i < bNN.length → (bNN.getD i []).length = nnCount := by
    intro i hi
    rw [List.getD_eq_getElem _ _ hi]
    exact hrow _ (List.getElem_mem hi)
  refine ⟨?_, ?_, ?_, ?_, ?_, ?_, ?_, ?_⟩
  · simp [crosswise_distances, hbn]
  · intro r hr
    obtain ⟨bi, row, hrow', hre⟩ := hcrossRow r hr
    rw [hre, List.length_map]
    exact hrow row hrow'
  · simp [pairwise_distances, hbn]
  · intro M hM
    rw [pairwise_distances, List.mem_map] at hM
    obtain ⟨row, hrow', hMe⟩ := hM
    constructor
    · rw [← hMe, List.length_map]
      exact hrow row hrow'
    · intro r hr
      rw [← hMe, List.mem_map] at hr
      obtain ⟨ni, _, hre⟩ := hr
      rw [← hre, List.length_map]
      exact hrow row hrow'
  · intro r hr x hx
    obtain ⟨bi, row, _, hre⟩ := hcrossRow r hr
    rw [hre, List.mem_map] at hx
    obtain ⟨ni, _, hxe⟩ := hx
    rw [← hxe]
    exact hm0 _ _
  · intro M hM r hr x hx
    rw [pairwise_distances, List.mem_map] at hM
    obtain ⟨row, _, hMe⟩ := hM
    rw [← hMe, List.mem_map] at hr
    obtain ⟨ni, _, hre⟩ := hr
    rw [← hre, List.mem_map] at hx
    obtain ⟨nl, _, hxe⟩ := hx
    rw [← hxe]
    exact hm0 _ _
  · intro i j l hi hj hl
    have hib : i < bNN.length := hbn ▸ hi
    have hj' : j < (bNN.getD i []).length := by rw [hrowLen i hib]; exact hj
    have hl' : l < (bNN.getD i []).length := by rw [hrowLen i hib]; exact hl
    rw [pairwise_distances_entry metric features bNN i j l hib hj' hl',
      pairwise_distances_entry metric features bNN i l j hib hl' hj']
    exact hms _ _
  · intro i j hi hj
    have hib : i < bNN.length := hbn ▸ hi
    have hj' : j < (bNN.getD i []).length := by rw [hrowLen i hib]; exact hj
    rw [pairwise_distances_entry metric features bNN i j j hib hj' hj']
    exact hmz _

theorem make_train_tensors_invariants_witness :
    (∀ row ∈ ([[1, 2], [0, 2]] : List (List Nat)), row.length = 2)
    ∧ ((make_train_tensors l2dist1 [0, 1] [[1, 2], [0, 2]]
        [[0], [3], [7]] [[10], [20], [30]]).1.length = ([0, 1] : List Nat).length) :=
  ⟨by decide,
   (make_train_tensors_invariants l2dist1 [0, 1] [[1, 2], [0, 2]]
      [[0], [3], [7]] [[10], [20], [30]] 2
      (fun x y => abs_nonneg _)
      (fun x y => abs_sub_comm _ _)
      (fun x => by simp [l2dist1])
      (by decide) (by decide)).1⟩

/-- Modelled from the spec: a Nearest-Neighbor Index handle (spec 4.1,
`NN_Wrapper`, absent from the visible sources).  The exact (full-scan) method
is modelled; the handle stores the reference features, the neighbor count and
the metric, and is never modified after construction. -/
structure NNIndex where
  refFeatures : Mat
  nnCount : Nat
  metric : Vec → Vec → ℚ

/-- Modelled from the spec: the candidate ordering of a neighbor query,
ascending by distance with ties broken by original reference index order. -/
def nnLe (a b : ℚ × Nat) : Bool := a.1 < b.1 || (a.1 == b.1 && a.2 ≤ b.2)

/-- Modelled from the spec: a single neighbor query (exact full scan): every
reference point is scored by its distance to the query, the scored pairs are
sorted ascending with ties by index, and the first `nnCount` are kept. -/
def nnQueryRow (idx : NNIndex) (q : Vec) : List (ℚ × Nat) :=
  (((List.range idx.refFeatures.length).map
      (fun i => (idx.metric q (idx.refFeatures.getD i []), i))).mergeSort
    nnLe).take idx.nnCount

/-- Modelled from the spec: the `NN_Wrapper` construction entry point (spec
4.1, 6), failing with `InvalidArgument` when the requested neighbor count
exceeds the reference set size. -/
def NN_Wrapper (trainFeatures : Mat) (nnCount : Nat)
    (metric : Vec → Vec → ℚ) : Except MuyError NNIndex :=
  if trainFeatures.length < nnCount then .error .InvalidArgument
  else .ok ⟨trainFeatures, nnCount, metric⟩

/-- Modelled from the spec: `get_nns`, the query entry point, with the index
state threaded explicitly.  The first component is the index handle after the
query; the second holds the neighbor index rows and the neighbor distance
rows, one row per query point. -/
def get_nns (idx : NNIndex) (queries : Mat) :
    NNIndex × (List (List Nat) × Mat) :=
  (idx,
   (queries.map fun q => (nnQueryRow idx q).map (·.2),
    queries.map fun q => (nnQueryRow idx q).map (·.1)))

theorem nnLe_trans : ∀ a b c : ℚ × Nat, nnLe a b → nnLe b c → nnLe a c := by
  intro a b c hab hbc
  simp only [nnLe, Bool.or_eq_true, Bool.and_eq_true, decide_eq_true_eq,
    beq_iff_eq] at *
  rcases hab with h1 | ⟨h1, h1'⟩ <;> rcases hbc with h2 | ⟨h2, h2'⟩
  · exact Or.inl (lt_trans h1 h2)
  · exact Or.inl (h2 ▸ h1)
  · exact Or.inl (h1 ▸ h2)
  · exact Or.inr ⟨h1.trans h2, le_trans h1' h2'⟩

theorem nnLe_total : ∀ a b : ℚ × Nat, nnLe a b || nnLe b a := by
  intro a b
  simp only [nnLe, Bool.or_eq_true, Bool.and_eq_true, decide_eq_true_eq,
    beq_iff_eq]
  rcases lt_trichotomy a.1 b.1 with h | h | h
  · tauto
  · rcases le_total a.2 b.2 with h2 | h2 <;> tauto
  · tauto

/-- The neighbor row of a query: length `nnCount` whenever the neighbor count
does not exceed the reference population. -/
theorem nnQueryRow_length (idx : NNIndex) (q : Vec)
    (hk : idx.nnCount ≤ idx.refFeatures.length) :
    (nnQueryRow idx q).length = idx.nnCount := by
  simp [nnQueryRow]
  omega

/-- Sorted selection: the index row obtained by scoring `n` candidates with
`d`, sorting ascending with ties broken by index, and truncating to `k`
entries, is sorted by non-decreasing score with ties broken by ascending
index. -/
theorem sorted_select_pairwise (d : Nat → ℚ) (n k : Nat) :
    ((((((List.range n).map (fun i => (d i, i))).mergeSort nnLe)).take k).map
        (fun p => p.2)).Pairwise
      (fun a b => d a < d b ∨ (d a = d b ∧ a < b)) := by
  have hmem : ∀ p ∈ ((List.range n).map (fun i => (d i, i))).mergeSort nnLe,
      p.1 = d p.2 := by
    intro p hp
    rw [List.mem_mergeSort, List.mem_map] at hp
    obtain ⟨i, _, hpe⟩ := hp
    rw [← hpe]
  have hpair : ((((List.range n).map (fun i => (d i, i))).mergeSort
      nnLe)).Pairwise (fun a b => nnLe a b = true) :=
    List.sorted_mergeSort nnLe_trans nnLe_total _
  have hnodup : (((((List.range n).map (fun i => (d i, i))).mergeSort
      nnLe)).map (fun p => p.2)).Nodup := by
    have hperm : List.Perm
        (((((List.range n).map (fun i => (d i, i))).mergeSort nnLe)).map
          (fun p => p.2))
        (((List.range n).map (fun i => (d i, i))).map (fun p => p.2)) :=
      (List.mergeSort_perm _ nnLe).map _
    have hmapid : (((List.range n).map (fun i => (d i, i))).map (fun p => p.2))
        = List.range n := by
      simp [List.map_map, Function.comp_def]
    rw [hmapid] at hperm
    exact hperm.symm.nodup (List.nodup_range n)
  have hsub : List.Sublist
      (((((List.range n).map (fun i => (d i, i))).mergeSort nnLe)).take k)
      ((((List.range n).map (fun i => (d i, i)))).mergeSort nnLe) :=
    List.take_sublist _ _
  have hpairT := hpair.sublist hsub
  have hnodupT : ((((((List.range n).map (fun i => (d i, i))).mergeSort
      nnLe)).take k).map (fun p => p.2)).Nodup := by
    rw [List.map_take]
    exact hnodup.sublist (List.take_sublist _ _)
  have hnodupT' : ((((((List.range n).map (fun i => (d i, i))).mergeSort
      nnLe)).take k).map (fun p => p.2)).Pairwise (fun a b => a ≠ b) := hnodupT
  have hneT : (((((List.range n).map (fun i => (d i, i))).mergeSort
      nnLe)).take k).Pairwise (fun p r => p.2 ≠ r.2) :=
    List.pairwise_map.mp hnodupT'
  rw [List.pairwise_map]
  refine (hpairT.and hneT).imp_of_mem ?_
  intro p r hp hr hpr
  have hp1 : p.1 = d p.2 := hmem p (hsub.mem hp)
  have hr1 : r.1 = d r.2 := hmem r (hsub.mem hr)
  obtain ⟨hle, hne⟩ := hpr
  simp only [nnLe, Bool.or_eq_true, Bool.and_eq_true, decide_eq_true_eq,
    beq_iff_eq] at hle
  rcases hle with h | ⟨h, h1⟩
  · exact Or.inl (by rw [← hp1, ← hr1]; exact h)
  · exact Or.inr ⟨by rw [← hp1, ← hr1]; exact h, lt_of_le_of_ne h1 hne⟩

/-- The neighbor row of a query is sorted by non-decreasing distance, ties
broken by ascending original reference index. -/
theorem nnQueryRow_sorted_indices (idx : NNIndex) (q : Vec) :
    ((nnQueryRow idx q).map (fun p => p.2)).Pairwise (fun a b =>
      idx.metric q (idx.refFeatures.getD a [])
          < idx.metric q (idx.refFeatures.getD b [])
      ∨ (idx.metric q (idx.refFeatures.getD a [])
          = idx.metric q (idx.refFeatures.getD b []) ∧ a < b)) :=
  sorted_select_pairwise (fun i => idx.metric q (idx.refFeatures.getD i []))
    idx.refFeatures.length idx.nnCount

/-- C3: for an index whose neighbor count does not exceed the reference
population, querying returns one neighbor index row per query point, each row
holding exactly `nnCount` reference indices sorted by non-decreasing distance
to that query, with ties broken by ascending original reference index. -/
theorem get_nns_rows_sorted (idx : NNIndex) (queries : Mat)
    (hk : idx.nnCount ≤ idx.refFeatures.length) :
    ((get_nns idx queries).2.1.length = queries.length)
    ∧ ∀ qi, qi < queries.length →
        (((get_nns idx queries).2.1.getD qi []).length = idx.nnCount
        ∧ ((get_nns idx queries).2.1.getD qi []).Pairwise (fun a b =>
            idx.metric (queries.getD qi []) (idx.refFeatures.getD a [])
                < idx.metric (queries.getD qi []) (idx.refFeatures.getD b [])
            ∨ (idx.metric (queries.getD qi []) (idx.refFeatures.getD a [])
                = idx.metric (queries.getD qi []) (idx.refFeatures.getD b [])
              ∧ a < b))) := by
  constructor
  · simp [get_nns]
  · intro qi hqi
    have hrow : (get_nns idx queries).2.1.getD qi []
        = (nnQueryRow idx (queries.getD qi [])).map (·.2) := by
      rw [show (get_nns idx queries).2.1
          = queries.map (fun q => (nnQueryRow idx q).map (·.2)) from rfl,
        getD_of_map _ _ _ _ [] hqi]
    rw [hrow]
    constructor
    · rw [List.length_map]
      exact nnQueryRow_length idx _ hk
    · exact nnQueryRow_sorted_indices idx _

theorem get_nns_rows_sorted_witness :
    ((⟨[[0], [4], [9]], 2, l2dist1⟩ : NNIndex).nnCount
      ≤ (⟨[[0], [4], [9]], 2, l2dist1⟩ : NNIndex).refFeatures.length)
    ∧ (get_nns (⟨[[0], [4], [9]], 2, l2dist1⟩ : NNIndex) [[5], [1]]).2.1.length
        = ([[5], [1]] : Mat).length :=
  ⟨by decide,
   (get_nns_rows_sorted (⟨[[0], [4], [9]], 2, l2dist1⟩ : NNIndex) [[5], [1]]
      (by decide)).1⟩

/-- C9: querying the same Neighbor Index twice with identical input yields
identical output, and neither query changes the index handle: the index is
read-only after construction. -/
theorem get_nns_idempotent (idx : NNIndex) (queries : Mat) :
    ((get_nns idx queries).1 = idx)
    ∧ ((get_nns (get_nns idx queries).1 queries).1 = idx)
    ∧ ((get_nns (get_nns idx queries).1 queries).2
        = (get_nns idx queries).2) :=
  ⟨rfl, rfl, rfl⟩

/-- Modelled from the spec: the neighbor index row paired with a sampled
reference point: the point's own reference row is queried against the
index. -/
def nnRowOf (idx : NNIndex) (bi : Nat) : List Nat :=
  (nnQueryRow idx (idx.refFeatures.getD bi [])).map (fun p => p.2)

/-- Modelled from the spec: `sample_batch` (spec 4.2, absent from the visible
sources).  The outcome of the uniform without-replacement draw used when
`batch_count < total_count` is modelled as the explicit `draw` argument;
when `batch_count = total_count` all indices are returned in their original
order, and `batch_count > total_count` fails with `InvalidArgument`. -/
def sample_batch (idx : NNIndex) (batchCount totalCount : Nat)
    (draw : List Nat) : Except MuyError (List Nat × List (List Nat)) :=
  if totalCount < batchCount then .error .InvalidArgument
  else if batchCount = totalCount then
    .ok (List.range totalCount, (List.range totalCount).map (nnRowOf idx))
  else
    .ok (draw, draw.map (nnRowOf idx))

/-- C4: requesting more neighbors than the reference population at index
construction fails with `InvalidArgument` (in particular k = 30 on 20
points), and sampling a batch larger than the population fails with
`InvalidArgument` (in particular batch_count = 500 on total_count = 100);
both return an error and no result. -/
theorem invalid_argument_fail_fast :
    (∀ (trainFeatures : Mat) (nnCount : Nat) (metric : Vec → Vec → ℚ),
      trainFeatures.length < nnCount →
      NN_Wrapper trainFeatures nnCount metric
        = Except.error MuyError.InvalidArgument)
    ∧ (∀ (idx : NNIndex) (batchCount totalCount : Nat) (draw : List Nat),
      totalCount < batchCount →
      sample_batch idx batchCount totalCount draw
        = Except.error MuyError.InvalidArgument) := by
  constructor
  · intro tf k m h
    simp [NN_Wrapper, h]
  · intro idx bc tc draw h
    simp [sample_batch, h]

theorem invalid_argument_fail_fast_witness :
    (((List.range 20).map (fun i => ([(i : ℚ)] : Vec))).length < 30
      ∧ NN_Wrapper ((List.range 20).map (fun i => ([(i : ℚ)] : Vec))) 30 l2dist1
          = Except.error MuyError.InvalidArgument)
    ∧ ((100 : Nat) < 500
      ∧ sample_batch ⟨[[0]], 1, l2dist1⟩ 500 100 []
          = Except.error MuyError.InvalidArgument) :=
  ⟨⟨by decide,
    invalid_argument_fail_fast.1 _ 30 l2dist1 (by decide)⟩,
   ⟨by decide,
    invalid_argument_fail_fast.2 ⟨[[0]], 1, l2dist1⟩ 500 100 [] (by decide)⟩⟩

/-- C5: a valid call to `sample_batch` returns distinct batch indices of size
`batch_count`, row-aligned with their neighbor rows; at the boundary
`batch_count = total_count` all indices are returned exactly once in their
original order.  The uniform without-replacement draw is represented by a
`draw` argument that holds `batch_count` distinct indices. -/
theorem sample_batch_spec (idx : NNIndex) (batchCount totalCount : Nat)
    (draw : List Nat) (hle : batchCount ≤ totalCount) (hnd : draw.Nodup)
    (hdl : draw.length = batchCount) :
    ∃ bi bnn, sample_batch idx batchCount totalCount draw = Except.ok (bi, bnn)
      ∧ bi.Nodup ∧ bi.length = batchCount
      ∧ bnn.length = batchCount
      ∧ (∀ i, i < batchCount → bnn.getD i [] = nnRowOf idx (bi.getD i 0))
      ∧ (batchCount = totalCount → bi = List.range totalCount) := by
  by_cases heq : batchCount = totalCount
  · subst heq
    refine ⟨List.range batchCount, (List.range batchCount).map (nnRowOf idx),
      ?_, List.nodup_range batchCount, List.length_range batchCount, ?_, ?_, ?_⟩
    · simp [sample_batch]
    · simp
    · intro i hi
      rw [getD_of_map _ _ _ _ 0 (by simpa using hi)]
    · intro _
      rfl
  · have hlt : batchCount < totalCount := lt_of_le_of_ne hle heq
    refine ⟨draw, draw.map (nnRowOf idx), ?_, hnd, hdl, ?_, ?_, ?_⟩
    · simp only [sample_batch]
      rw [if_neg (by omega), if_neg heq]
    · simp [hdl]
    · intro i hi
      rw [getD_of_map _ _ _ _ 0 (by omega)]
    · intro h
      exact absurd h heq

theorem sample_batch_spec_witness :
    (2 : Nat) ≤ 3
    ∧ ∃ bi bnn,
        sample_batch (⟨[[0], [4], [9]], 2, l2dist1⟩ : NNIndex) 2 3 [2, 0]
          = Except.ok (bi, bnn)
        ∧ bi.Nodup ∧ bi.length = 2 ∧ bnn.length = 2
        ∧ (∀ i, i < 2 →
            bnn.getD i [] = nnRowOf (⟨[[0], [4], [9]], 2, l2dist1⟩ : NNIndex)
              (bi.getD i 0))
        ∧ ((2 : Nat) = 3 → bi = List.range 3) :=
  ⟨by decide,
   sample_batch_spec (⟨[[0], [4], [9]], 2, l2dist1⟩ : NNIndex) 2 3 [2, 0]
     (by decide) (by decide) (by decide)⟩

/-- Modelled from the spec: the learnable output-scale parameter `sigma_sq`,
which always initializes to "unlearned" and can be fitted post hoc. -/
inductive SigmaSq
  | unlearned
  | learned (val : ℚ)
deriving DecidableEq, Repr

/-- Modelled from the spec: a MuyGPS model handle: a radial kernel family
indexed by the smoothness hyperparameter, the current smoothness value `nu`,
the noise prior `eps`, the distance metric, and the output scale. -/
structure MuyGPS where
  kernelFamily : ℚ → ℚ → ℚ
  nu : ℚ
  eps : ℚ
  metric : Vec → Vec → ℚ
  sigma_sq : SigmaSq

/-- Modelled from the spec: the Kernel Evaluator contract (spec 4.4): the
radial kernel value at a given distance under the current smoothness. -/
def kernelAt (m : MuyGPS) (dist : ℚ) : ℚ := m.kernelFamily m.nu dist

/-- Modelled from the spec: elementwise, shape-preserving application of the
kernel to a distance matrix (spec 4.4). -/
def kernelMat (m : MuyGPS) (dists : Mat) : Mat :=
  dists.map (List.map (kernelAt m))

/-- Inverse of a square rational matrix via the adjugate formula. -/
def matInv {k : Nat} (A : Matrix (Fin k) (Fin k) ℚ) :
    Matrix (Fin k) (Fin k) ℚ :=
  (A.det)⁻¹ • A.adjugate

/-- A list matrix viewed as a square matrix over `Fin`. -/
def listToSquare (Kl : Mat) : Matrix (Fin Kl.length) (Fin Kl.length) ℚ :=
  Matrix.of fun i j => (Kl.getD i []).getD j 0

/-- Modelled from the spec: the linear solve `K⁻¹ · v` of the Predictor
(spec 4.6), as a list-level operation. -/
def solveVec (Kl : Mat) (v : Vec) : Vec :=
  (List.finRange Kl.length).map fun i =>
    (matInv (listToSquare Kl)).mulVec (fun j => v.getD j 0) i

/-- Dot product of two rational vectors. -/
def dotL (a b : Vec) : ℚ := (List.zipWith (fun x y => x * y) a b).sum

/-- Modelled from the spec: one diagonal entry of
`k(query, query) − Kcross · K⁻¹ · Kcrossᵗ`, the unscaled posterior variance
of one batch row (spec 4.6). -/
def diagVarRow (kqq : ℚ) (Kl : Mat) (kc : Vec) : ℚ :=
  kqq - dotL kc (solveVec Kl kc)

/-- Modelled from the spec: the unscaled diagonal posterior variance across
all batch rows (spec 4.6). -/
def unscaledDiagVar (kqq : ℚ) (K : List Mat) (Kcross : Mat) : List ℚ :=
  List.zipWith (fun Kl kc => diagVarRow kqq Kl kc) K Kcross

/-- Modelled from the spec: output-scale application: the variance is
multiplied by the fitted scale exactly when scaling is requested and the
scale has been fitted; otherwise it is passed through unscaled. -/
def applyScale (s : SigmaSq) (applySigmaSq : Bool) (v : List ℚ) : List ℚ :=
  match s, applySigmaSq with
  | SigmaSq.learned val, true => v.map (fun x => val * x)
  | _, _ => v

/-- Modelled from the spec: the posterior mean of one batch row,
`Kcross · K⁻¹ · neighbor_targets` (spec 4.6). -/
def meanRow (Kl : Mat) (kc : Vec) (targets : Mat) : Vec :=
  (List.range (targets.getD 0 []).length).map fun j =>
    (List.zipWith (fun si row => si * row.getD j 0) (solveVec Kl kc)
      targets).sum

/-- Modelled from the spec: the supported posterior variance modes. -/
inductive VarianceMode | diagonal
deriving DecidableEq, Repr

/-- Modelled from the spec: `MuyGPS.regress` (spec 4.6, absent from the
visible sources): posterior means for all batch rows and, in diagonal
variance mode, the diagonal posterior variances with the output scale
applied when requested and fitted. -/
def regress (m : MuyGPS) (K : List Mat) (Kcross : Mat)
    (nnTargets : List Mat) (varianceMode : Option VarianceMode)
    (applySigmaSq : Bool) : Mat × Option (List ℚ) :=
  (List.zipWith (fun Kl p => meanRow Kl p.1 p.2) K
    (List.zip Kcross nnTargets),
   match varianceMode with
   | none => none
   | some VarianceMode.diagonal =>
       some (applyScale m.sigma_sq applySigmaSq
         (unscaledDiagVar (kernelAt m 0) K Kcross)))

/-- C6: in diagonal variance mode the posterior variance is the diagonal of
`k(query, query) − Kcross · K⁻¹ · Kcrossᵗ`, multiplied elementwise by the
fitted output scale when scaling is requested and the scale has been fitted;
when the scale is unlearned the scaling is omitted; and the variance obtained
without scaling, multiplied by the fitted scale, equals the variance obtained
with scaling. -/
theorem regress_diagonal_variance_scaling (m : MuyGPS) (K : List Mat)
    (Kcross : Mat) (nnTargets : List Mat) (s : ℚ)
    (hfit : m.sigma_sq = SigmaSq.learned s) :
    ((regress m K Kcross nnTargets (some VarianceMode.diagonal) true).2
        = some ((unscaledDiagVar (kernelAt m 0) K Kcross).map (fun x => s * x)))
    ∧ (∀ m2 : MuyGPS, m2.sigma_sq = SigmaSq.unlearned → ∀ b : Bool,
        (regress m2 K Kcross nnTargets (some VarianceMode.diagonal) b).2
          = some (unscaledDiagVar (kernelAt m2 0) K Kcross))
    ∧ (Option.map (fun v => v.map (fun x => s * x))
        (regress m K Kcross nnTargets (some VarianceMode.diagonal) false).2
        = (regress m K Kcross nnTargets (some VarianceMode.diagonal) true).2) := by
  refine ⟨?_, ?_, ?_⟩
  · simp [regress, applyScale, hfit]
  · intro m2 h2 b
    cases b <;> simp [regress, applyScale, h2]
  · simp [regress, applyScale, hfit]

theorem regress_diagonal_variance_scaling_witness :
    ((⟨fun nu d => nu + d, 1, 0, l2dist1, SigmaSq.learned 3⟩ : MuyGPS).sigma_sq
        = SigmaSq.learned 3)
    ∧ ((regress (⟨fun nu d => nu + d, 1, 0, l2dist1, SigmaSq.learned 3⟩ : MuyGPS)
          [[[2]]] [[1]] [[[5]]] (some VarianceMode.diagonal) true).2
        = some ((unscaledDiagVar
            (kernelAt (⟨fun nu d => nu + d, 1, 0, l2dist1, SigmaSq.learned 3⟩ : MuyGPS) 0)
            [[[2]]] [[1]]).map (fun x => (3 : ℚ) * x))) :=
  ⟨rfl,
   (regress_diagonal_variance_scaling
      (⟨fun nu d => nu + d, 1, 0, l2dist1, SigmaSq.learned 3⟩ : MuyGPS)
      [[[2]]] [[1]] [[[5]]] 3 rfl).1⟩

/-- Modelled from the spec: the mean squared error loss `mse_fn`. -/
def mse_fn (preds targets : Mat) : ℚ :=
  ((List.zipWith (fun p t => (List.zipWith (fun a b => (a - b)^2) p t).sum)
      preds targets).sum) / preds.length

/-- Modelled from the spec: the tensor arguments of the optimization entry
point, held as explicit state so that mutation, or its absence, is
observable in the embedding. -/
structure TensorStore where
  batchTargets : Mat
  batchNNTargets : List Mat
  crosswiseDists : Mat
  pairwiseDists : List Mat

/-- Modelled from the spec: the two interchangeable search strategies of the
Optimizer (spec 4.5). -/
inductive OptMethod | scipy | bayesian
deriving DecidableEq, Repr

/-- The model with its smoothness hyperparameter replaced by a candidate. -/
def withNu (m : MuyGPS) (cand : ℚ) : MuyGPS := { m with nu := cand }

/-- Modelled from the spec: the leave-one-out cross-validation objective
(spec 4.5): kernel tensors are rebuilt from the stored distance tensors at
the candidate hyperparameter and the batch predictions are scored against
the batch targets. -/
def looObjective (m : MuyGPS) (cand : ℚ) (store : TensorStore) : ℚ :=
  mse_fn
    (regress (withNu m cand)
      (store.pairwiseDists.map (kernelMat (withNu m cand)))
      (kernelMat (withNu m cand) store.crosswiseDists)
      store.batchNNTargets none false).1
    store.batchTargets

/-- Modelled from the spec: the Iterate phase of the Optimizer state machine
(spec 4.5): each candidate is scored against the tensor store, the best
candidate so far is kept, and the iteration counter advances.  The store is
threaded through every step so that any mutation would be visible. -/
def optLoop (m : MuyGPS) :
    List ℚ → ℚ × ℚ → TensorStore → Nat → (ℚ × ℚ) × TensorStore × Nat
  | [], best, store, iters => (best, store, iters)
  | c :: rest, best, store, iters =>
      optLoop m rest
        (if looObjective m c store < best.2 then (c, looObjective m c store)
         else best)
        store (iters + 1)

/-- Modelled from the spec: `optimize_from_tensors` (spec 4.5, 6, absent
from the visible sources): run the chosen search strategy's candidate
proposals against the tensor store and return the model fitted at the best
candidate, the tensor store after the run, and the iteration count. -/
def optimize_from_tensors (m : MuyGPS) (store : TensorStore)
    (method : OptMethod) (proposals : OptMethod → List ℚ) :
    MuyGPS × TensorStore × Nat :=
  (withNu m
    (optLoop m (proposals method) (m.nu, looObjective m m.nu store)
      store 0).1.1,
   (optLoop m (proposals method) (m.nu, looObjective m m.nu store)
      store 0).2)

/-- The optimizer loop returns its tensor store unchanged and advances the
iteration counter once per candidate. -/
theorem optLoop_frame (m : MuyGPS) :
    ∀ (cands : List ℚ) (best : ℚ × ℚ) (store : TensorStore) (iters : Nat),
      (optLoop m cands best store iters).2.1 = store
      ∧ (optLoop m cands best store iters).2.2 = iters + cands.length := by
  intro cands
  induction cands with
  | nil =>
    intro best store iters
    simp [optLoop]
  | cons c rest ih =>
    intro best store iters
    rw [optLoop]
    refine ⟨(ih _ store (iters + 1)).1, ?_⟩
    rw [(ih _ store (iters + 1)).2]
    simp
    omega

/-- C7: under either search strategy, `optimize_from_tensors` leaves the
caller's distance and target tensors exactly as they were: the tensor store
after the run equals the store passed in, and the only other outputs are the
fitted model and the iteration count. -/
theorem optimize_from_tensors_frame (m : MuyGPS) (store : TensorStore)
    (method : OptMethod) (proposals : OptMethod → List ℚ) :
    (optimize_from_tensors m store method proposals).2.1 = store
    ∧ (optimize_from_tensors m store method proposals).2.2
        = (proposals method).length := by
  constructor
  · exact (optLoop_frame m (proposals method) _ store 0).1
  · rw [show (optimize_from_tensors m store method proposals).2.2
        = (optLoop m (proposals method) (m.nu, looObjective m m.nu store)
            store 0).2.2 from rfl,
      (optLoop_frame m (proposals method) _ store 0).2]
    simp

/-- Modelled from the spec: the tutorials' regression workflow `do_regress`:
build the neighbor index on the training features, query the test features,
build the regression tensors, realize the kernel tensors, regress, and
finally evaluate the predictions against the held-out test responses.  The
test responses enter only the final evaluation step. -/
def do_regress (m : MuyGPS) (nnCount : Nat)
    (testFeatures trainFeatures trainResponses testResponses : Mat) :
    (Mat × Option (List ℚ)) × ℚ :=
  ((fun tensors =>
      regress m (tensors.2.1.map (kernelMat m)) (kernelMat m tensors.1)
        tensors.2.2 (some VarianceMode.diagonal) true)
    (make_regress_tensors m.metric (List.range testFeatures.length)
      (get_nns (⟨trainFeatures, nnCount, m.metric⟩ : NNIndex)
        testFeatures).2.1
      testFeatures trainFeatures trainResponses),
   mse_fn
     ((fun tensors =>
        regress m (tensors.2.1.map (kernelMat m)) (kernelMat m tensors.1)
          tensors.2.2 (some VarianceMode.diagonal) true)
      (make_regress_tensors m.metric (List.range testFeatures.length)
        (get_nns (⟨trainFeatures, nnCount, m.metric⟩ : NNIndex)
          testFeatures).2.1
        testFeatures trainFeatures trainResponses)).1
     testResponses)

/-- C10: the predictions and variances of the regression workflow are a
function of the training features, training responses and test features
only: two runs differing only in the test responses return identical
predictions and identical variances. -/
theorem do_regress_ignores_test_responses (m : MuyGPS) (nnCount : Nat)
    (testFeatures trainFeatures trainResponses tr1 tr2 : Mat) :
    (do_regress m nnCount testFeatures trainFeatures trainResponses tr1).1
      = (do_regress m nnCount testFeatures trainFeatures trainResponses
          tr2).1 :=
  rfl

/-- The benchmark grid of the tutorials:
`x = np.linspace(lb, ub, data_count).reshape(data_count, 1)`
(univariate and regress-api tutorials), an `(n, 1)` feature matrix. -/
def linspace (lb ub : ℚ) (n : Nat) : Mat :=
  (List.range n).map fun (i : Nat) => [lb + (ub - lb) * (i : ℚ) / ((n : ℚ) - 1)]

/-- Python slicing `xs[::step]` for a positive step: the elements at indices
0, step, 2·step, …, as used by `train_features = x[::train_step, :]` in the
tutorials. -/
def sliceStep {α : Type} : List α → Nat → List α
  | [], _ => []
  | x :: rest, step => x :: sliceStep (rest.drop (step - 1)) step
termination_by xs _ => xs.length
decreasing_by simp; omega

/-- The training feature split of the benchmark scenario:
`train_features = x[::10]` with `x = np.linspace(-10.0, 10.0, 5001)`. -/
def train_features : Mat := sliceStep (linspace (-10) 10 5001) 10

theorem sliceStep_length_ten {α : Type} :
    ∀ (n : Nat) (xs : List α), xs.length = n →
      (sliceStep xs 10).length = (n + 9) / 10 := by
  intro n
  induction n using Nat.strong_induction_on with
  | _ n ih =>
    intro xs h
    match xs with
    | [] =>
      simp at h
      subst h
      simp [sliceStep]
    | x :: rest =>
      rw [sliceStep]
      simp at h
      have hlt : (rest.drop 9).length < n := by simp; omega
      have hrec := ih (rest.drop 9).length hlt (rest.drop 9) rfl
      simp [hrec]
      omega

/-- C8 counterexample: the benchmark grid has 5001 rows, but selecting every
10th row yields a training set whose size is not 500. -/
theorem train_features_count_not_500 :
    (linspace (-10) 10 5001).length = 5001
    ∧ train_features.length ≠ 500 := by
  have h1 : (linspace (-10) 10 5001).length = 5001 := by
    simp only [linspace, List.length_map, List.length_range]
  refine ⟨h1, ?_⟩
  have h2 := sliceStep_length_ten (linspace (-10) 10 5001).length
    (linspace (-10) 10 5001) rfl
  rw [h1] at h2
  show (sliceStep (linspace (-10) 10 5001) 10).length ≠ 500
  rw [h2]
  decide

/-- C8 (amended): the benchmark grid has 5001 rows and selecting every 10th
row as training data yields exactly 501 training rows (indices 0, 10, …,
5000). -/
theorem train_features_count :
    (linspace (-10) 10 5001).length = 5001
    ∧ train_features.length = 501 := by
  have h1 : (linspace (-10) 10 5001).length = 5001 := by
    simp only [linspace, List.length_map, List.length_range]
  refine ⟨h1, ?_⟩
  have h2 := sliceStep_length_ten (linspace (-10) 10 5001).length
    (linspace (-10) 10 5001) rfl
  rw [h1] at h2
  show (sliceStep (linspace (-10) 10 5001) 10).length = 501
  rw [h2]
